import Mathlib

/-!
Verification of the phase-block segmentation script `whatshap/phase2gtf.py`.

The script has two pipelines:
* `parse_hp_tags` (tag-based mode): per-record phase-group `HP` tags,
  a `Counter` of per-(chromosome, block-name) variant counts, optional GTF
  emission at block transitions, and final statistics.
* `parse_pipe_notation` (adjacency / pipe mode): blocks reconstructed from
  runs of consecutive phased heterozygous SNP records, with retroactive
  block opening at the previous record.

Records are embedded as a structure holding exactly the fields the script
reads.  Python `assert` failures and attribute/name errors are embedded as
`Except.error` with a message identifying the source failure.
-/

/-- A VCF record as read by the script: chromosome, 0-based start position,
whether it is a SNP, number of ALT alleles, number of samples, and the first
sample's heterozygosity flag, phased flag and optional `HP` tag value
(a list of strings such as `["550267-1", "550267-2"]`). -/
structure VcfRecord where
  chrom : String
  start : Nat
  isSnp : Bool
  altCount : Nat
  numSamples : Nat
  het : Bool
  phased : Bool
  hp : Option (List String)
deriving Repr, DecidableEq

/-- Association-list embedding of a Python `collections.Counter` keyed by
(chromosome, block name): increment the count of `k`, appending `(k, 1)`
in insertion order when absent (as `Counter` does). -/
def cntIncr (c : List ((String × String) × Nat)) (k : String × String) :
    List ((String × String) × Nat) :=
  match c with
  | [] => [(k, 1)]
  | (q, v) :: rest => if q = k then (q, v + 1) :: rest else (q, v) :: cntIncr rest k

/-- Look up a key in the counter, 0 when absent. -/
def cntGet (c : List ((String × String) × Nat)) (k : String × String) : Nat :=
  match c with
  | [] => 0
  | (q, v) :: rest => if q = k then v else cntGet rest k

/-- A block-close event in tag mode: the data passed to `GtfWriter.write`
(chromosome, 0-based start, exclusive stop, block name), together with the
value the blocks counter holds for `(chrom, name)` at close time (the
variant count of the spec's PhaseBlock; not printed in the GTF line). -/
structure TagBlock where
  chrom : String
  start : Nat
  stop : Nat
  name : String
  nvars : Nat
deriving Repr, DecidableEq

/-- Running state of `parse_hp_tags`: the counters, the previous record and
previous block name, the carried `block_start` local (meaningful only while
`prevBlockName` is `some`), and the GTF lines emitted so far. -/
structure TagState where
  nPhased : Nat
  nRecords : Nat
  blocks : List ((String × String) × Nat)
  prevBlockName : Option String
  prevRecord : Option VcfRecord
  blockStart : Nat
  emitted : List TagBlock
deriving Repr, DecidableEq

def tagInit : TagState :=
  { nPhased := 0, nRecords := 0, blocks := [], prevBlockName := none,
    prevRecord := none, blockStart := 0, emitted := [] }

/-- `call.data.HP[0].split('-')[0]`: the block-name prefix of an HP entry,
the characters before the first dash (the whole string when there is no
dash). -/
def hpPrefix (s : String) : String :=
  String.mk (s.data.takeWhile (fun c => c ≠ '-'))

/-- One loop iteration of `parse_hp_tags`, for one record.  Mirrors the
source order: count the record, `assert len(record.samples) == 1`, the two
HP-validity asserts, HP extraction and counter update, then the transition
check `prev_block_name != block_name or prev_record.CHROM != record.CHROM`
with Python short-circuit (reading `prev_record.CHROM` with `prev_record`
still `None` raises `AttributeError`), closing the open block through the
GTF writer (whose `assert start < stop` is embedded as an error) and
opening a new one. -/
def tagStep (s : TagState) (r : VcfRecord) : Except String TagState :=
  let nRecords := s.nRecords + 1
  if r.numSamples ≠ 1 then
    Except.error "AssertionError: len(record.samples) == 1"
  else if 1 < r.altCount ∧ r.hp.isSome then
    Except.error "AssertionError: multi-allelic record with HP tag"
  else if r.het = false ∧ r.hp.isSome then
    Except.error "HP tag for homozygous variant found"
  else
    let step2 : Except String (Option String × List ((String × String) × Nat) × Nat) :=
      match r.hp with
      | none => Except.ok (none, s.blocks, s.nPhased)
      | some l =>
        if l.length ≠ 2 then Except.error "AssertionError: len(call.data.HP) == 2"
        else
          let nm := hpPrefix (l.headD "")
          Except.ok (some nm, cntIncr s.blocks (r.chrom, nm), s.nPhased + 1)
    match step2 with
    | Except.error e => Except.error e
    | Except.ok (blockName, blocks, nPhased) =>
      let cond : Except String Bool :=
        if s.prevBlockName ≠ blockName then Except.ok true
        else
          match s.prevRecord with
          | none => Except.error "AttributeError: NoneType object has no attribute CHROM"
          | some pr => Except.ok (pr.chrom ≠ r.chrom)
      match cond with
      | Except.error e => Except.error e
      | Except.ok c =>
        if c then
          let closed : Except String (List TagBlock) :=
            match s.prevBlockName with
            | none => Except.ok s.emitted
            | some pnm =>
              match s.prevRecord with
              | none => Except.error "AttributeError: NoneType object has no attribute CHROM"
              | some pr =>
                if s.blockStart < pr.start + 1 then
                  Except.ok (s.emitted ++
                    [{ chrom := pr.chrom, start := s.blockStart, stop := pr.start + 1,
                       name := pnm, nvars := cntGet blocks (pr.chrom, pnm) }])
                else Except.error "AssertionError: start < stop"
          match closed with
          | Except.error e => Except.error e
          | Except.ok emitted =>
            let blockStart := match blockName with
              | some _ => r.start
              | none => s.blockStart
            Except.ok { nPhased := nPhased, nRecords := nRecords, blocks := blocks,
                        prevBlockName := blockName, prevRecord := some r,
                        blockStart := blockStart, emitted := emitted }
        else
          Except.ok { nPhased := nPhased, nRecords := nRecords, blocks := blocks,
                      prevBlockName := blockName, prevRecord := some r,
                      blockStart := s.blockStart, emitted := s.emitted }

/-- The statistics `parse_hp_tags` prints at the end; the three block-size
lines are produced only when the counter is non-empty (`if blocks:`). -/
structure TagStats where
  nRecords : Nat
  nPhased : Nat
  nBlocks : Nat
  largest : Option Nat
  median : Option Nat
  smallest : Option Nat
deriving Repr, DecidableEq

/-- `sorted(blocks.values())[len(blocks) // 2]` and the max/min lines. -/
def tagStatsOf (s : TagState) : TagStats :=
  let vals := s.blocks.map (fun p => p.2)
  { nRecords := s.nRecords, nPhased := s.nPhased, nBlocks := s.blocks.length,
    largest := if vals.isEmpty then none else vals.max?,
    median := if vals.isEmpty then none
              else (List.insertionSort (· ≤ ·) vals).get? (s.blocks.length / 2),
    smallest := if vals.isEmpty then none else vals.min? }

/-- The record loop of `parse_hp_tags` from a given state: run `tagStep`
on each record in order; a Python exception aborts the run. -/
def tagRunFrom (s : TagState) : List VcfRecord → Except String TagState
  | [] => Except.ok s
  | r :: rs =>
    match tagStep s r with
    | Except.error e => Except.error e
    | Except.ok s2 => tagRunFrom s2 rs

/-- The whole of `parse_hp_tags` on a record stream: the loop, then the
statistics.  There is no end-of-stream flush of a still-open block in the
source. -/
def parse_hp_tags (rs : List VcfRecord) : Except String (TagState × TagStats) :=
  match tagRunFrom tagInit rs with
  | Except.error e => Except.error e
  | Except.ok st => Except.ok (st, tagStatsOf st)

/-- A block printed by `parse_pipe_notation`: chromosome (of the record
current when printing), 0-based start, exclusive stop (`prev_start + 1`),
the `Len=` value and the `N=` variant count. -/
structure PipeBlock where
  chrom : String
  start : Nat
  stop : Nat
  len : Nat
  nvars : Nat
deriving Repr, DecidableEq

/-- Category of the previous examined record, ghost instrumentation used
only to state counting properties: it was phased, it closed a block, or it
was counted as a singleton. -/
inductive PrevCat where
  | phasedRec : PrevCat
  | closer : PrevCat
  | single : PrevCat
deriving Repr, DecidableEq
/-- Running state of `parse_pipe_notation`.  The fields through `emitted`
mirror the source locals (`n`, `block_start`, `n_variants`, `singletons`,
`prev_start`, `block_lengths`, plus the printed blocks); `lastChrom` is the
chromosome of the last iterated record, skipped or not (the Python loop
variable `record` surviving the loop).  `prevCat`, `closers`,
`absorbedCloser` and `absorbedSingle` are ghost counters that do not feed
back into control flow: total block-closing records, and how many closing /
singleton-counted records were later absorbed as the retroactive first
member of a block. -/
structure PipeState where
  n : Nat
  blockStart : Option Nat
  nVariants : Nat
  singletons : Nat
  prevStart : Nat
  blockLengths : List Nat
  emitted : List PipeBlock
  lastChrom : Option String
  prevCat : PrevCat
  closers : Nat
  absorbedCloser : Nat
  absorbedSingle : Nat
deriving Repr, DecidableEq

def pipeInit : PipeState :=
  { n := 0, blockStart := none, nVariants := 0, singletons := 0, prevStart := 0,
    blockLengths := [], emitted := [], lastChrom := none,
    prevCat := PrevCat.single, closers := 0, absorbedCloser := 0, absorbedSingle := 0 }

/-- One loop iteration of `parse_pipe_notation`.  Mirrors the source order:
skip non-SNPs, skip (with a warning) records with more than one ALT, take
`record.samples[0]` (IndexError on zero samples), `assert len(samples) == 1`,
skip non-heterozygous calls; then for a phased call `assert n > 0` and open
(retroactively at `prev_start`, with `n_variants = 2`) or extend the block,
and for an unphased call close the open block (printing it, with
`assert prev_start > block_start`) or count a singleton.  Finally update
`prev_start` and `n`. -/
def pipeStep (s : PipeState) (r : VcfRecord) : Except String PipeState :=
  if r.isSnp = false then Except.ok { s with lastChrom := some r.chrom }
  else if 1 < r.altCount then Except.ok { s with lastChrom := some r.chrom }
  else if r.numSamples = 0 then Except.error "IndexError: list index out of range"
  else if r.numSamples ≠ 1 then Except.error "AssertionError: len(record.samples) == 1"
  else if r.het = false then Except.ok { s with lastChrom := some r.chrom }
  else if r.phased then
    if s.n = 0 then Except.error "AssertionError: First variant in VCF is phased"
    else
      match s.blockStart with
      | none =>
        Except.ok
          { s with blockStart := some s.prevStart, nVariants := 2,
                   prevStart := r.start, n := s.n + 1, lastChrom := some r.chrom,
                   prevCat := PrevCat.phasedRec,
                   absorbedCloser :=
                     if s.prevCat = PrevCat.closer then s.absorbedCloser + 1
                     else s.absorbedCloser,
                   absorbedSingle :=
                     if s.prevCat = PrevCat.single then s.absorbedSingle + 1
                     else s.absorbedSingle }
      | some _ =>
        Except.ok
          { s with nVariants := s.nVariants + 1, prevStart := r.start,
                   n := s.n + 1, lastChrom := some r.chrom, prevCat := PrevCat.phasedRec }
  else
    match s.blockStart with
    | some bs =>
      if s.prevStart ≤ bs then Except.error "AssertionError: prev_start > block_start"
      else
        Except.ok
          { s with
            emitted := s.emitted ++
              [{ chrom := r.chrom, start := bs, stop := s.prevStart + 1,
                 len := s.prevStart - bs + 1, nvars := s.nVariants }],
            blockLengths := s.blockLengths ++ [s.prevStart - bs + 1],
            blockStart := none, prevStart := r.start, n := s.n + 1,
            lastChrom := some r.chrom, prevCat := PrevCat.closer,
            closers := s.closers + 1 }
    | none =>
      Except.ok
        { s with singletons := s.singletons + 1, prevStart := r.start,
                 n := s.n + 1, lastChrom := some r.chrom, prevCat := PrevCat.single }

/-- The end-of-stream flush of `parse_pipe_notation` (source lines 116-120):
a still-open block is printed using the last loop record's chromosome and
`prev_start`, after `assert prev_start > block_start`. -/
def pipeFlush (s : PipeState) : Except String PipeState :=
  match s.blockStart with
  | none => Except.ok s
  | some bs =>
    match s.lastChrom with
    | none => Except.error "NameError: name record is not defined"
    | some ch =>
      if s.prevStart ≤ bs then Except.error "AssertionError: prev_start > block_start"
      else
        Except.ok
          { s with
            emitted := s.emitted ++
              [{ chrom := ch, start := bs, stop := s.prevStart + 1,
                 len := s.prevStart - bs + 1, nvars := s.nVariants }],
            blockLengths := s.blockLengths ++ [s.prevStart - bs + 1],
            blockStart := none }

/-- The record loop of `parse_pipe_notation` from a given state. -/
def pipeRunFrom (s : PipeState) : List VcfRecord → Except String PipeState
  | [] => Except.ok s
  | r :: rs =>
    match pipeStep s r with
    | Except.error e => Except.error e
    | Except.ok s2 => pipeRunFrom s2 rs

/-- The record loop of `parse_pipe_notation` including the end-of-stream
flush (the statistics tail is `pipeStatsOf`). -/
def pipeRun (rs : List VcfRecord) : Except String PipeState :=
  match pipeRunFrom pipeInit rs with
  | Except.error e => Except.error e
  | Except.ok st => pipeFlush st

/-- The statistics tail of `parse_pipe_notation`: it prints the two count
lines (`considered variants`, `blocks`), then evaluates the guard
`if blocks:` — but no name `blocks` is defined anywhere in the function
(the list of lengths is called `block_lengths`), so Python raises
`NameError` there on every run.  The embedding returns the lines printed
before the guard together with the resulting error. -/
def pipeStatsOf (s : PipeState) :
    List (String × Nat) × Except String Unit :=
  ([("considered variants", s.n), ("blocks", s.blockLengths.length)],
   Except.error "NameError: name blocks is not defined")

/-- Expand a frequency list `[(size, count), ...]` into the multiset of
sizes it describes, as a list with `count` copies of each `size` in order. -/
def expandFreq : List (Nat × Nat) → List Nat
  | [] => []
  | p :: rest => List.replicate p.2 p.1 ++ expandFreq rest

/-- Total of a weight function over a frequency list. -/
def freqTotal (w : Nat × Nat → Nat) (fs : List (Nat × Nat)) : Nat :=
  (fs.map w).sum

/-- Walk a frequency list in order, accumulating `w p` for each entry into
the running sum `m`, and return the first size at which the running sum
reaches or exceeds `mid`. -/
def freqWalk (w : Nat × Nat → Nat) : List (Nat × Nat) → Nat → Nat → Option Nat
  | [], _, _ => none
  | p :: rest, m, mid =>
    if mid ≤ m + w p then some p.1 else freqWalk w rest (m + w p) mid

/-- The median the source reports (tag mode, line 191):
`sorted(blocks.values())[len(blocks) // 2]` applied to a list of block
sizes. -/
def reportedMedian (vals : List Nat) : Option Nat :=
  if vals.isEmpty then none
  else (List.insertionSort (· ≤ ·) vals).get? (vals.length / 2)

/-- Modelled from the spec: the claimed median — sort sizes ascending, let
`middle = ceil((1 + total variants across blocks) / 2)`, walk sizes
ascending accumulating a running sum of (size × occurrence-count) until the
sum first reaches or exceeds `middle`.  (`ceil((1 + t) / 2) = (t + 2) / 2`
in natural division.)  The frequency list must be in ascending size
order. -/
def claimedMedian (fs : List (Nat × Nat)) : Option Nat :=
  freqWalk (fun p => p.1 * p.2) fs 0 ((freqTotal (fun p => p.1 * p.2) fs + 2) / 2)

/-- The amended median walk: `middle = ceil((1 + number of blocks) / 2)`
and the running sum accumulates the occurrence-counts themselves. -/
def amendedMedian (fs : List (Nat × Nat)) : Option Nat :=
  freqWalk (fun p => p.2) fs 0 ((freqTotal (fun p => p.2) fs + 2) / 2)

/-- The source's `frequency_median` (defined but never called): given a
frequency dictionary, `middle = (1 + sum(frequencies.values())) // 2`, walk
sizes ascending accumulating counts until the partial sum reaches
`middle`.  Embedded over an ascending frequency list; `none` stands for
the unreachable `assert False` tail. -/
def frequency_median (fs : List (Nat × Nat)) : Option Nat :=
  freqWalk (fun p => p.2) fs 0 ((1 + freqTotal (fun p => p.2) fs) / 2)

/-! ### Claim C10: the first-phased assertion in pipe mode -/
/-- A record `parse_pipe_notation` skips without touching its running
state: not a SNP, or multi-ALT (warned and skipped), or a single-sample
single-ALT SNP whose call is not heterozygous. -/
def pipeSkips (r : VcfRecord) : Prop :=
  r.isSnp = false ∨ (r.isSnp = true ∧ 1 < r.altCount) ∨
  (r.isSnp = true ∧ r.altCount ≤ 1 ∧ r.numSamples = 1 ∧ r.het = false)

instance (r : VcfRecord) : Decidable (pipeSkips r) := by
  unfold pipeSkips
  infer_instance

/-- Tag-mode invariant: every emitted block is a well-formed interval with
at least one counted variant, and while a block is open the counter already
holds at least one variant for it (the opening record incremented it). -/
def tagBlocksOk (s : TagState) : Prop :=
  (∀ b ∈ s.emitted, b.start < b.stop ∧ 1 ≤ b.nvars) ∧
  (∀ nm pr, s.prevBlockName = some nm → s.prevRecord = some pr →
    1 ≤ cntGet s.blocks (pr.chrom, nm))

/-- Pipe-mode invariant: every emitted block is a well-formed interval with
at least two variants, and an open block has accumulated at least two. -/
def pipeBlocksOk (s : PipeState) : Prop :=
  (∀ b ∈ s.emitted, b.start < b.stop ∧ 2 ≤ b.nvars) ∧
  (s.blockStart.isSome = true → 2 ≤ s.nVariants)

/-- Total variant count over a list of emitted pipe-mode blocks. -/
def sumNvars (l : List PipeBlock) : Nat := (l.map (fun b => b.nvars)).sum

/-- The variant count of the currently open block, 0 when none is open. -/
def inB (s : PipeState) : Nat :=
  if s.blockStart.isSome then s.nVariants else 0

/-- Pipe-mode counting invariant: a phased previous record means a block is
open; block variants (emitted plus open) plus singletons plus closing
records balance the examined-record count up to the ghost absorption
counters; and each closing record is absorbed at most once. -/
def pipeCountInv (s : PipeState) : Prop :=
  (s.prevCat = PrevCat.phasedRec → s.blockStart.isSome = true) ∧
  sumNvars s.emitted + inB s + s.singletons + s.closers
    = s.n + s.absorbedSingle + s.absorbedCloser ∧
  (if s.prevCat = PrevCat.closer then s.absorbedCloser + 1 ≤ s.closers
   else s.absorbedCloser ≤ s.closers)

/-! ### General helper lemmas -/
/-- Indexing a replicated list inside its bounds. -/
theorem replicate_get? (c i : Nat) (v : Nat) (h : i < c) :
    (List.replicate c v).get? i = some v := by
  induction c generalizing i with
  | zero => omega
  | succ c ih =>
    cases i with
    | zero => rfl
    | succ i => simpa [List.replicate_succ] using ih i (by omega)

/-- Indexing an append on the left side. -/
theorem append_get?_left (l1 l2 : List Nat) (i : Nat) (h : i < l1.length) :
    (l1 ++ l2).get? i = l1.get? i := by
  induction l1 generalizing i with
  | nil => simp at h
  | cons a l ih =>
    cases i with
    | zero => rfl
    | succ i => simpa using ih i (by simpa using Nat.lt_of_succ_lt_succ h)

/-- Indexing an append on the right side. -/
theorem append_get?_right (l1 l2 : List Nat) (i : Nat) (h : l1.length ≤ i) :
    (l1 ++ l2).get? i = l2.get? (i - l1.length) := by
  induction l1 generalizing i with
  | nil => simp
  | cons a l ih =>
    cases i with
    | zero => simp at h
    | succ i =>
      have := ih i (by simpa using Nat.le_of_succ_le_succ h)
      simpa [Nat.succ_sub_succ] using this

/-- An invariant preserved by every successful `tagStep` holds after every
successful `tagRunFrom`. -/
theorem tagRunFrom_inv (P : TagState → Prop)
    (hstep : ∀ s r s2, P s → tagStep s r = Except.ok s2 → P s2) :
    ∀ (l : List VcfRecord) (s s2), P s → tagRunFrom s l = Except.ok s2 → P s2 := by
  intro l
  induction l with
  | nil =>
    intro s s2 hP hrun
    simp only [tagRunFrom] at hrun
    cases hrun
    exact hP
  | cons r rs ih =>
    intro s s2 hP hrun
    simp only [tagRunFrom] at hrun
    cases h1 : tagStep s r with
    | error e => rw [h1] at hrun; cases hrun
    | ok s1 => rw [h1] at hrun; exact ih s1 s2 (hstep s r s1 hP h1) hrun

/-- An invariant preserved by every successful `pipeStep` holds after every
successful `pipeRunFrom`. -/
theorem pipeRunFrom_inv (P : PipeState → Prop)
    (hstep : ∀ s r s2, P s → pipeStep s r = Except.ok s2 → P s2) :
    ∀ (l : List VcfRecord) (s s2), P s → pipeRunFrom s l = Except.ok s2 → P s2 := by
  intro l
  induction l with
  | nil =>
    intro s s2 hP hrun
    simp only [pipeRunFrom] at hrun
    cases hrun
    exact hP
  | cons r rs ih =>
    intro s s2 hP hrun
    simp only [pipeRunFrom] at hrun
    cases h1 : pipeStep s r with
    | error e => rw [h1] at hrun; cases hrun
    | ok s1 => rw [h1] at hrun; exact ih s1 s2 (hstep s r s1 hP h1) hrun

/-- Incrementing one counter key changes exactly that key's value. -/
theorem cntGet_cntIncr (c : List ((String × String) × Nat)) (k q : String × String) :
    cntGet (cntIncr c k) q = if k = q then cntGet c q + 1 else cntGet c q := by
  induction c with
  | nil =>
    by_cases h : k = q <;> simp [cntIncr, cntGet, h]
  | cons p rest ih =>
    obtain ⟨pk, pv⟩ := p
    by_cases h1 : pk = k
    · subst h1
      by_cases h2 : pk = q <;> simp [cntIncr, cntGet, h2]
    · by_cases h2 : pk = q
      · subst h2
        have h3 : ¬k = pk := fun h => h1 h.symm
        simp [cntIncr, cntGet, h1, h3]
      · by_cases h3 : k = q
        · subst h3
          simp [cntIncr, cntGet, h1, h2, ih]
        · simp [cntIncr, cntGet, h1, h2, h3, ih]

/-! ### Median equivalence: the walk over frequencies versus sorted indexing -/
/-- The expansion of a frequency list has one element per counted block. -/
theorem expandFreq_length (fs : List (Nat × Nat)) :
    (expandFreq fs).length = freqTotal (fun p => p.2) fs := by
  induction fs with
  | nil => rfl
  | cons p rest ih => simp [expandFreq, freqTotal, ih, List.sum_cons]

/-- Every element of the expansion is a size occurring in the frequency
list. -/
theorem mem_expandFreq (fs : List (Nat × Nat)) (x : Nat) (hx : x ∈ expandFreq fs) :
    ∃ p ∈ fs, x = p.1 := by
  induction fs with
  | nil => simp [expandFreq] at hx
  | cons p rest ih =>
    simp only [expandFreq, List.mem_append] at hx
    cases hx with
    | inl h => exact ⟨p, List.mem_cons_self p rest, List.eq_of_mem_replicate h⟩
    | inr h =>
      obtain ⟨q, hq, hxq⟩ := ih h
      exact ⟨q, List.mem_cons_of_mem p hq, hxq⟩

/-- A replicated list is sorted. -/
theorem sorted_replicate (c v : Nat) : List.Sorted (· ≤ ·) (List.replicate c v) := by
  induction c with
  | zero => simp [List.Sorted]
  | succ c ih =>
    rw [List.replicate_succ]
    exact List.Pairwise.cons (fun b hb => Nat.le_of_eq (List.eq_of_mem_replicate hb).symm) ih

/-- The expansion of a frequency list with strictly ascending sizes is
sorted. -/
theorem sorted_expandFreq (fs : List (Nat × Nat))
    (hs : List.Pairwise (fun a b : Nat × Nat => a.1 < b.1) fs) :
    List.Sorted (· ≤ ·) (expandFreq fs) := by
  induction fs with
  | nil => simp [expandFreq, List.Sorted]
  | cons p rest ih =>
    rw [List.pairwise_cons] at hs
    show List.Sorted (· ≤ ·) (List.replicate p.2 p.1 ++ expandFreq rest)
    rw [List.Sorted, List.pairwise_append]
    refine ⟨sorted_replicate p.2 p.1, ih hs.2, ?_⟩
    intro a ha b hb
    obtain ⟨q, hq, hbq⟩ := mem_expandFreq rest b hb
    have h1 : a = p.1 := List.eq_of_mem_replicate ha
    have h2 : p.1 < q.1 := hs.1 q hq
    omega

/-- Indexing the expansion of a frequency list equals walking the list
accumulating occurrence counts up to a threshold. -/
theorem expandFreq_get_freqWalk (fs : List (Nat × Nat)) :
    ∀ m mid : Nat, (∀ p ∈ fs, 0 < p.2) → m < mid →
      mid ≤ m + freqTotal (fun p => p.2) fs →
      (expandFreq fs).get? (mid - m - 1) = freqWalk (fun p => p.2) fs m mid := by
  induction fs with
  | nil =>
    intro m mid _ hlt hle
    simp [freqTotal] at hle
    omega
  | cons p rest ih =>
    intro m mid hpos hlt hle
    simp only [expandFreq, freqWalk]
    by_cases hc : mid ≤ m + p.2
    · rw [if_pos hc]
      rw [append_get?_left _ _ _ (by simp [List.length_replicate]; omega)]
      exact replicate_get? p.2 (mid - m - 1) p.1 (by omega)
    · rw [if_neg hc]
      rw [append_get?_right _ _ _ (by simp [List.length_replicate]; omega)]
      have heq : mid - m - 1 - (List.replicate p.2 p.1).length = mid - (m + p.2) - 1 := by
        simp [List.length_replicate]; omega
      rw [heq]
      exact ih (m + p.2) mid (fun q hq => hpos q (List.mem_cons_of_mem p hq))
        (by omega)
        (by simp only [freqTotal, List.map_cons, List.sum_cons] at hle ⊢; omega)

/-! ### Claim C4: the reported median block size -/
/-- C4, counterexample: for block sizes 2, 2, 10 (frequencies
`[(2, 2), (10, 1)]`) the source reports `sorted([2,2,10])[3 // 2] = 2`,
while the claimed walk — `middle = ceil((1 + 14) / 2) = 8`, accumulating
size × occurrence-count — first reaches 8 at size 10.  The claim that the
reported median equals the claimed walk is therefore false. -/
theorem c4_median_counterexample :
    reportedMedian (expandFreq [(2, 2), (10, 1)]) = some 2 ∧
    claimedMedian [(2, 2), (10, 1)] = some 10 ∧
    reportedMedian (expandFreq [(2, 2), (10, 1)]) ≠ claimedMedian [(2, 2), (10, 1)] := by
  refine ⟨by decide, by decide, by decide⟩

/-- C4 (amended): for every nonzero collection of block sizes, given as a
frequency list in strictly ascending size order with positive
occurrence-counts, the reported median block size
(`sorted(blocks.values())[len(blocks) // 2]`) equals the value obtained by
walking sizes ascending accumulating a running sum of occurrence-counts
until the sum first reaches or exceeds `middle = ceil((1 + number of
blocks) / 2)` — the upper of the two middle values when the number of
blocks is even; in particular, for block sizes [3, 3, 5] the median
is 3. -/
theorem c4_median_amended (fs : List (Nat × Nat)) (hne : fs ≠ [])
    (hs : List.Pairwise (fun a b : Nat × Nat => a.1 < b.1) fs)
    (hpos : ∀ p ∈ fs, 0 < p.2) :
    reportedMedian (expandFreq fs) = amendedMedian fs := by
  have htot : 0 < freqTotal (fun p => p.2) fs := by
    cases fs with
    | nil => exact absurd rfl hne
    | cons p rest =>
      have hp := hpos p (List.mem_cons_self p rest)
      simp only [freqTotal, List.map_cons, List.sum_cons]
      omega
  have hlen : (expandFreq fs).length = freqTotal (fun p => p.2) fs :=
    expandFreq_length fs
  have hnonempty : (expandFreq fs).isEmpty = false := by
    cases hE : expandFreq fs with
    | nil => rw [hE] at hlen; simp only [List.length_nil] at hlen; omega
    | cons a l => rfl
  unfold reportedMedian amendedMedian
  simp only [hnonempty, Bool.false_eq_true, if_false]
  rw [List.Sorted.insertionSort_eq (sorted_expandFreq fs hs), hlen]
  have hidx : freqTotal (fun p => p.2) fs / 2 =
      (freqTotal (fun p => p.2) fs + 2) / 2 - 0 - 1 := by omega
  rw [hidx]
  exact expandFreq_get_freqWalk fs 0 ((freqTotal (fun p => p.2) fs + 2) / 2)
    hpos (by omega) (by omega)

/-- C4 witness: the amended median law applied to the spec scenario
[3, 3, 5], whose reported median is 3. -/
theorem c4_median_witness :
    reportedMedian (expandFreq [(3, 2), (5, 1)]) = amendedMedian [(3, 2), (5, 1)] ∧
    amendedMedian [(3, 2), (5, 1)] = some 3 :=
  ⟨c4_median_amended [(3, 2), (5, 1)] (by decide) (by decide) (by decide), by decide⟩

/-! ### Claim C1: tag mode drops the final open block -/
/-- C1, evaluation at the failing input: in tag mode, a stream that ends
while a block is open (two records on chr1 at positions 100 and 105, both
tagged with phase group 42) produces no GTF block at all — `emitted = []`
— although the blocks counter holds 2 variants for `("chr1", "42")`; the
mandatory end-of-stream flush (which the pipe-notation function performs)
is absent from `parse_hp_tags`, so the final block is silently dropped
rather than emitted with `end = 105 + 1`. -/
theorem c1_no_endofstream_flush :
    (parse_hp_tags
      [⟨"chr1", 100, true, 1, 1, true, false, some ["42-1", "42-2"]⟩,
       ⟨"chr1", 105, true, 1, 1, true, false, some ["42-2", "42-1"]⟩]).map
      (fun p => (p.1.emitted, cntGet p.1.blocks ("chr1", "42"), p.2.nBlocks)) =
    Except.ok ([], 2, 1) := rfl

/-! ### Claim C3: finalize with zero blocks -/
/-- C3, evaluation at the failing input: in pipe mode the statistics tail
fails on every input — here the empty stream, which yields zero blocks:
the two count lines are produced and then the guard `if blocks:`
references the undefined name `blocks` (the lengths list is
`block_lengths`), so Python raises NameError instead of omitting the
block-size lines. -/
theorem c3_pipe_finalize_nameerror :
    (pipeRun []).map pipeStatsOf =
    Except.ok ([("considered variants", 0), ("blocks", 0)],
      Except.error "NameError: name blocks is not defined") := rfl

/-! ### Claim C2: first record without an HP tag -/
/-- C2: in tag mode, for every non-empty stream whose first record carries
no HP tag (and passes the single-sample check), the run aborts at that
first record: the transition check short-circuits to evaluating
`prev_record.CHROM` while `prev_record` is still `None`, so the whole run
returns the AttributeError — no blocks and no statistics are produced,
whatever the later records are. -/
theorem c2_first_record_untagged_fails (r : VcfRecord) (rs : List VcfRecord)
    (hsam : r.numSamples = 1) (hhp : r.hp = none) :
    parse_hp_tags (r :: rs) =
    Except.error "AttributeError: NoneType object has no attribute CHROM" := by
  have hstep : tagStep tagInit r =
      Except.error "AttributeError: NoneType object has no attribute CHROM" := by
    simp [tagStep, hsam, hhp, tagInit]
  simp [parse_hp_tags, tagRunFrom, hstep]

/-- C2 witness: a concrete two-record stream whose untagged first record
aborts the run even though the second record is phased. -/
theorem c2_first_record_untagged_witness :
    parse_hp_tags
      [⟨"chr1", 100, true, 1, 1, true, false, none⟩,
       ⟨"chr1", 105, true, 1, 1, true, false, some ["42-1", "42-2"]⟩] =
    Except.error "AttributeError: NoneType object has no attribute CHROM" :=
  c2_first_record_untagged_fails
    ⟨"chr1", 100, true, 1, 1, true, false, none⟩
    [⟨"chr1", 105, true, 1, 1, true, false, some ["42-1", "42-2"]⟩] rfl rfl

/-- A skipped record leaves the pipe state unchanged (`continue` happens
before `prev_start` and `n` are updated); only the loop variable holding
the last record moves. -/
theorem pipeStep_skip (s : PipeState) (r : VcfRecord) (h : pipeSkips r) :
    pipeStep s r = Except.ok { s with lastChrom := some r.chrom } := by
  rcases h with h | ⟨h1, h2⟩ | ⟨h1, h2, h3, h4⟩
  · simp [pipeStep, h]
  · simp [pipeStep, h1, h2]
  · have halt : ¬(1 < r.altCount) := by omega
    simp [pipeStep, h1, halt, h3, h4]

/-! ### Claim C10: the first-phased assertion in pipe mode -/

/-- C10, counterexample: the stream whose first-ever record is an
unphased non-SNP (hence skipped) and whose second record is a phased
heterozygous SNP still fails with the first-variant-phased assertion,
because the guard counts only examined records (`n`, still 0) — so the
failure is not raised "only when the first-ever record of the stream is
marked phased". -/
theorem c10_first_phased_counterexample :
    pipeRun [⟨"chr1", 0, false, 1, 1, true, false, none⟩,
             ⟨"chr1", 5, true, 1, 1, true, true, none⟩] =
      Except.error "AssertionError: First variant in VCF is phased" ∧
    (⟨"chr1", 0, false, 1, 1, true, false, none⟩ : VcfRecord).phased = false :=
  ⟨rfl, rfl⟩

/-- C10 (amended): pipe mode fails with the first-variant-phased
assertion whenever the first examined record (single-ALT SNP,
single-sample, heterozygous) is marked phased — records skipped as
non-SNP, multi-allelic or homozygous before it do not count as examined
and do not prevent the failure. -/
theorem c10_first_examined_phased_fails (pre : List VcfRecord) (r : VcfRecord)
    (rest : List VcfRecord) (hpre : ∀ p ∈ pre, pipeSkips p)
    (h1 : r.isSnp = true) (h2 : r.altCount ≤ 1) (h3 : r.numSamples = 1)
    (h4 : r.het = true) (h5 : r.phased = true) :
    pipeRun (pre ++ r :: rest) =
      Except.error "AssertionError: First variant in VCF is phased" := by
  have key : ∀ (pre2 : List VcfRecord) (s : PipeState), (∀ p ∈ pre2, pipeSkips p) →
      s.n = 0 →
      pipeRunFrom s (pre2 ++ r :: rest) =
        Except.error "AssertionError: First variant in VCF is phased" := by
    intro pre2
    induction pre2 with
    | nil =>
      intro s _ hn
      have halt : ¬(1 < r.altCount) := by omega
      have hstep : pipeStep s r =
          Except.error "AssertionError: First variant in VCF is phased" := by
        simp [pipeStep, h1, halt, h3, h4, h5, hn]
      simp only [List.nil_append, pipeRunFrom, hstep]
    | cons p pre2 ih =>
      intro s hs hn
      simp only [List.cons_append, pipeRunFrom,
        pipeStep_skip s p (hs p (List.mem_cons_self p pre2))]
      exact ih _ (fun q hq => hs q (List.mem_cons_of_mem p hq)) hn
  simp only [pipeRun, key pre pipeInit hpre rfl]

/-- C10 witness: a skipped non-SNP record followed by a phased examined
record triggers the assertion. -/
theorem c10_first_examined_phased_witness :
    pipeRun ([⟨"chr2", 3, false, 1, 1, true, false, none⟩] ++
             (⟨"chr2", 7, true, 1, 1, true, true, none⟩ : VcfRecord) :: []) =
      Except.error "AssertionError: First variant in VCF is phased" :=
  c10_first_examined_phased_fails
    [⟨"chr2", 3, false, 1, 1, true, false, none⟩]
    ⟨"chr2", 7, true, 1, 1, true, true, none⟩ []
    (by decide) rfl (by decide) rfl rfl rfl

/-! ### Claim C7: records with more than one sample -/
/-- C7, counterexample: a single-record tag-mode stream whose record has
two samples does not continue with the first sample — the run aborts at
the sample-count assertion. -/
theorem c7_multisample_counterexample :
    parse_hp_tags [⟨"chr1", 100, true, 1, 2, true, false, none⟩] =
      Except.error "AssertionError: len(record.samples) == 1" := rfl

/-- C7 (amended): any record whose sample count differs from one aborts
the run when it reaches the per-record sample check — every record in tag
mode, and every single-ALT SNP record in pipe mode (where non-SNP and
multi-ALT records are skipped before the check).  Multi-sample inputs are
rejected, not processed on their first sample. -/
theorem c7_multisample_aborts :
    (∀ (s : TagState) (r : VcfRecord), r.numSamples ≠ 1 →
      tagStep s r = Except.error "AssertionError: len(record.samples) == 1") ∧
    (∀ (s : PipeState) (r : VcfRecord), r.isSnp = true → r.altCount ≤ 1 →
      r.numSamples ≠ 1 → ∃ e, pipeStep s r = Except.error e) := by
  constructor
  · intro s r h
    simp [tagStep, h]
  · intro s r h1 h2 h3
    have halt : ¬(1 < r.altCount) := by omega
    by_cases h0 : r.numSamples = 0
    · exact ⟨"IndexError: list index out of range", by simp [pipeStep, h1, halt, h0]⟩
    · exact ⟨"AssertionError: len(record.samples) == 1",
        by simp [pipeStep, h1, halt, h0, h3]⟩

/-- C7 witness: a two-sample record aborts the tag-mode step and the
pipe-mode step. -/
theorem c7_multisample_witness :
    tagStep tagInit ⟨"chr1", 100, true, 1, 2, true, false, none⟩ =
      Except.error "AssertionError: len(record.samples) == 1" ∧
    ∃ e, pipeStep pipeInit ⟨"chr1", 100, true, 1, 2, true, false, none⟩ =
      Except.error e :=
  ⟨c7_multisample_aborts.1 tagInit ⟨"chr1", 100, true, 1, 2, true, false, none⟩
      (by decide),
   c7_multisample_aborts.2 pipeInit ⟨"chr1", 100, true, 1, 2, true, false, none⟩
      rfl (by decide) (by decide)⟩

/-! ### Claim C9: validity asserts before the HP tag is used -/
/-- C9: in tag mode, a record carrying an HP tag while having more than
one alternate allele, or while being homozygous, fails the corresponding
assertion — from any state, before the tag is used: the step returns an
error, so the record is never accepted into a block. -/
theorem c9_tag_validity_asserts (s : TagState) (r : VcfRecord)
    (hsam : r.numSamples = 1) (hhp : r.hp.isSome = true)
    (hbad : 1 < r.altCount ∨ r.het = false) :
    tagStep s r = Except.error
      (if 1 < r.altCount then "AssertionError: multi-allelic record with HP tag"
       else "HP tag for homozygous variant found") := by
  rcases hbad with h | h
  · simp [tagStep, hsam, hhp, h]
  · by_cases h2 : 1 < r.altCount
    · simp [tagStep, hsam, hhp, h2]
    · simp [tagStep, hsam, hhp, h, h2]

/-- C9 witness: a two-ALT record with an HP tag raises the multi-allelic
assertion from the initial state. -/
theorem c9_tag_validity_witness :
    tagStep tagInit ⟨"chr1", 100, true, 2, 1, true, false, some ["7-1", "7-2"]⟩ =
      Except.error "AssertionError: multi-allelic record with HP tag" :=
  c9_tag_validity_asserts tagInit
    ⟨"chr1", 100, true, 2, 1, true, false, some ["7-1", "7-2"]⟩
    rfl rfl (Or.inl (by decide))

/-! ### Claim C8: chromosome change with identical block-name prefix -/
/-- C8: in tag mode, when the incoming record carries a tag with the same
block-name prefix as the open block but lies on a different chromosome, a
transition occurs: the open block is closed on the previous record's
chromosome with `end = previous position + 1`, and a new block is opened
at the current record's position (all in one step, close before open). -/
theorem c8_chrom_transition (s : TagState) (pr r : VcfRecord) (nm : String)
    (l : List String)
    (hprev : s.prevRecord = some pr) (hpbn : s.prevBlockName = some nm)
    (hhp : r.hp = some l) (hlen : l.length = 2)
    (hname : hpPrefix (l.headD "") = nm)
    (hchrom : pr.chrom ≠ r.chrom)
    (hsam : r.numSamples = 1) (hhet : r.het = true) (halt : r.altCount ≤ 1)
    (hbs : s.blockStart ≤ pr.start) :
    tagStep s r = Except.ok
      { nPhased := s.nPhased + 1, nRecords := s.nRecords + 1,
        blocks := cntIncr s.blocks (r.chrom, nm),
        prevBlockName := some nm, prevRecord := some r, blockStart := r.start,
        emitted := s.emitted ++
          [{ chrom := pr.chrom, start := s.blockStart, stop := pr.start + 1,
             name := nm,
             nvars := cntGet (cntIncr s.blocks (r.chrom, nm)) (pr.chrom, nm) }] } := by
  have halt2 : ¬(1 < r.altCount) := by omega
  have hlt : s.blockStart < pr.start + 1 := by omega
  have hname2 : hpPrefix (l.head?.getD "") = nm := by
    cases l with
    | nil => simp at hlen
    | cons a t => simpa using hname
  simp [tagStep, hsam, halt2, hhet, hhp, hlen, hname2, hprev, hpbn, hchrom, hlt]

/-- C8 witness: tag `100-1` on chr1 then `100-2` on chr2 — same prefix
`100`, different chromosome — closes the chr1 block at 1000 + 1 and opens
a chr2 block at position 5. -/
theorem c8_chrom_transition_witness :
    tagStep
      { nPhased := 1, nRecords := 1, blocks := [(("chr1", "100"), 1)],
        prevBlockName := some "100",
        prevRecord := some ⟨"chr1", 1000, true, 1, 1, true, false, some ["100-1", "100-2"]⟩,
        blockStart := 1000, emitted := [] }
      ⟨"chr2", 5, true, 1, 1, true, false, some ["100-2", "100-1"]⟩ =
    Except.ok
      { nPhased := 2, nRecords := 2,
        blocks := [(("chr1", "100"), 1), (("chr2", "100"), 1)],
        prevBlockName := some "100",
        prevRecord := some ⟨"chr2", 5, true, 1, 1, true, false, some ["100-2", "100-1"]⟩,
        blockStart := 5,
        emitted := [{ chrom := "chr1", start := 1000, stop := 1001,
                      name := "100", nvars := 1 }] } :=
  c8_chrom_transition
    { nPhased := 1, nRecords := 1, blocks := [(("chr1", "100"), 1)],
      prevBlockName := some "100",
      prevRecord := some ⟨"chr1", 1000, true, 1, 1, true, false, some ["100-1", "100-2"]⟩,
      blockStart := 1000, emitted := [] }
    ⟨"chr1", 1000, true, 1, 1, true, false, some ["100-1", "100-2"]⟩
    ⟨"chr2", 5, true, 1, 1, true, false, some ["100-2", "100-1"]⟩
    "100" ["100-2", "100-1"]
    rfl rfl rfl rfl (by decide) (by decide) rfl rfl (by decide) (by decide)

/-! ### Claims C5 and C6: emitted-block invariants and conservation -/

theorem tagStep_blocksOk (s : TagState) (r : VcfRecord) (s2 : TagState)
    (hP : tagBlocksOk s) (hstep : tagStep s r = Except.ok s2) : tagBlocksOk s2 := by
  simp only [tagStep] at hstep
  repeat' split at hstep
  all_goals try (cases hstep)
  -- three surviving branches: transition with a new block name, transition
  -- to no block name, and no transition
  case _ =>
    rename_i st2 blv npv cdv cv hcv clv hem hclosed bn val hhp hcond
    split at hhp
    · simp at hhp
    · split at hhp
      · simp at hhp
      · rename_i x0 l hrhp hlen2
        simp only [Except.ok.injEq, Prod.mk.injEq, Option.some.injEq] at hhp
        obtain ⟨hval, hbl, hnp⟩ := hhp
        subst hval hbl hnp
        constructor
        · intro b hb
          split at hclosed
          · simp only [Except.ok.injEq] at hclosed
            subst hclosed
            exact hP.1 b hb
          · split at hclosed
            · simp at hclosed
            · split at hclosed
              · rename_i x1 pnm hpbn x2 pr0 hpr hif
                simp only [Except.ok.injEq] at hclosed
                subst hclosed
                rcases List.mem_append.mp hb with hold | hnew
                · exact hP.1 b hold
                · have hb2 := List.mem_singleton.mp hnew
                  subst hb2
                  refine ⟨hif, ?_⟩
                  have base := hP.2 pnm pr0 hpbn hpr
                  dsimp only
                  rw [cntGet_cntIncr]
                  split <;> omega
              · simp at hclosed
        · intro nm pr h1 h2
          have h1b : some (hpPrefix (l.headD "")) = some nm := h1
          have h2b : some r = some pr := h2
          injection h1b with h1c
          injection h2b with h2c
          subst h1c h2c
          dsimp only
          rw [cntGet_cntIncr, if_pos rfl]
          omega
  case _ =>
    rename_i st2 blv npv cdv cv hcv clv hem hclosed bn hhp hcond
    split at hhp
    · simp only [Except.ok.injEq, Prod.mk.injEq, true_and] at hhp
      obtain ⟨hbl, hnp⟩ := hhp
      subst hbl hnp
      constructor
      · intro b hb
        split at hclosed
        · simp only [Except.ok.injEq] at hclosed
          subst hclosed
          exact hP.1 b hb
        · split at hclosed
          · simp at hclosed
          · split at hclosed
            · rename_i x1 pnm hpbn x2 pr0 hpr hif
              simp only [Except.ok.injEq] at hclosed
              subst hclosed
              rcases List.mem_append.mp hb with hold | hnew
              · exact hP.1 b hold
              · have hb2 := List.mem_singleton.mp hnew
                subst hb2
                exact ⟨hif, hP.2 pnm pr0 hpbn hpr⟩
            · simp at hclosed
      · intro nm pr h1 h2
        exact Option.noConfusion (show (none : Option String) = some nm from h1)
    · split at hhp
      · simp at hhp
      · simp at hhp
  case _ =>
    rename_i st2 bn blv npv hhp cdv cv hcond hcv
    constructor
    · exact hP.1
    · intro nm pr h1 h2
      have h1b : bn = some nm := h1
      have h2b : some r = some pr := h2
      injection h2b with h2c
      subst h2c
      split at hhp
      · simp only [Except.ok.injEq, Prod.mk.injEq] at hhp
        obtain ⟨hbn, hbl, hnp⟩ := hhp
        exact Option.noConfusion (hbn.trans h1b)
      · split at hhp
        · simp at hhp
        · simp only [Except.ok.injEq, Prod.mk.injEq] at hhp
          obtain ⟨hbn, hbl, hnp⟩ := hhp
          injection hbn.trans h1b with hnm
          subst hnm
          dsimp only
          rw [← hbl, cntGet_cntIncr, if_pos rfl]
          omega

theorem pipeStep_blocksOk (s : PipeState) (r : VcfRecord) (s2 : PipeState)
    (hP : pipeBlocksOk s) (hstep : pipeStep s r = Except.ok s2) : pipeBlocksOk s2 := by
  simp only [pipeStep] at hstep
  repeat' split at hstep
  all_goals try (cases hstep)
  all_goals try (exact ⟨hP.1, hP.2⟩)
  -- four retroactive-open branches (ghost-counter if combinations) ...
  case _ => exact ⟨hP.1, fun _ => Nat.le_refl 2⟩
  case _ => exact ⟨hP.1, fun _ => Nat.le_refl 2⟩
  case _ => exact ⟨hP.1, fun _ => Nat.le_refl 2⟩
  case _ => exact ⟨hP.1, fun _ => Nat.le_refl 2⟩
  -- ... the extend branch ...
  case _ =>
    rename_i x bs hbs
    refine ⟨hP.1, fun _ => ?_⟩
    have h2 := hP.2 (by rw [hbs]; rfl)
    dsimp only
    omega
  -- ... and the close branch
  case _ =>
    rename_i x bs hbs hgt
    constructor
    · intro b hb
      dsimp only at hb
      rcases List.mem_append.mp hb with hold | hnew
      · exact hP.1 b hold
      · have hb2 := List.mem_singleton.mp hnew
        subst hb2
        have h2 := hP.2 (by rw [hbs]; rfl)
        exact ⟨by dsimp only; omega, by dsimp only; omega⟩
    · intro hbs2
      simp at hbs2

theorem pipeFlush_blocksOk (s : PipeState) (s2 : PipeState)
    (hP : pipeBlocksOk s) (hflush : pipeFlush s = Except.ok s2) :
    ∀ b ∈ s2.emitted, b.start < b.stop ∧ 2 ≤ b.nvars := by
  simp only [pipeFlush] at hflush
  repeat' split at hflush
  all_goals try (cases hflush)
  · exact hP.1
  case _ =>
    rename_i x bs hbs x2 ch hch hgt
    intro b hb
    dsimp only at hb
    rcases List.mem_append.mp hb with hold | hnew
    · exact hP.1 b hold
    · have hb2 := List.mem_singleton.mp hnew
      subst hb2
      have h2 := hP.2 (by rw [hbs]; rfl)
      exact ⟨by dsimp only; omega, by dsimp only; omega⟩

theorem sumNvars_append (l : List PipeBlock) (b : PipeBlock) :
    sumNvars (l ++ [b]) = sumNvars l + b.nvars := by
  simp [sumNvars]

theorem pipeStep_countInv (s : PipeState) (r : VcfRecord) (s2 : PipeState)
    (hP : pipeCountInv s) (hstep : pipeStep s r = Except.ok s2) : pipeCountInv s2 := by
  obtain ⟨hA, hB, hC⟩ := hP
  simp only [pipeStep] at hstep
  repeat' split at hstep
  all_goals try (cases hstep)
  all_goals try (exact ⟨hA, hB, hC⟩)
  -- the four retroactive-open branches (ghost-counter if combinations),
  -- the extend branch, the close branch and the singleton branch remain
  case _ =>
    rename_i x hbs hc1 hc2
    simp [hc1] at hc2
  case _ =>
    rename_i x hbs hc1 hc2
    have h0 : inB s = 0 := by simp [inB, hbs]
    rw [h0] at hB
    rw [if_pos hc1] at hC
    refine ⟨fun _ => rfl, ?_, ?_⟩
    · simp only [inB]
      try dsimp only
      simp
      omega
    · try dsimp only
      simp
      omega
  case _ =>
    rename_i x hbs hc1 hc2
    have h0 : inB s = 0 := by simp [inB, hbs]
    rw [h0] at hB
    rw [if_neg hc1] at hC
    refine ⟨fun _ => rfl, ?_, ?_⟩
    · simp only [inB]
      try dsimp only
      simp
      omega
    · try dsimp only
      simp
      omega
  case _ =>
    rename_i x hbs hc1 hc2
    cases hpc : s.prevCat with
    | phasedRec =>
      have hsome := hA hpc
      rw [hbs] at hsome
      simp at hsome
    | closer => exact absurd hpc hc1
    | single => exact absurd hpc hc2
  case _ =>
    rename_i x bs hbs
    have hCw : s.absorbedCloser ≤ s.closers := by
      by_cases h : s.prevCat = PrevCat.closer
      · rw [if_pos h] at hC; omega
      · rw [if_neg h] at hC; omega
    have h0 : inB s = s.nVariants := by simp [inB, hbs]
    rw [h0] at hB
    refine ⟨fun _ => by simp [hbs], ?_, ?_⟩
    · simp only [inB]
      try dsimp only
      simp [hbs]
      omega
    · try dsimp only
      simp
      omega
  case _ =>
    rename_i x bs hbs hgt
    have hCw : s.absorbedCloser ≤ s.closers := by
      by_cases h : s.prevCat = PrevCat.closer
      · rw [if_pos h] at hC; omega
      · rw [if_neg h] at hC; omega
    have h0 : inB s = s.nVariants := by simp [inB, hbs]
    rw [h0] at hB
    refine ⟨?_, ?_, ?_⟩
    · intro h
      simp at h
    · try dsimp only
      rw [sumNvars_append]
      simp only [inB]
      try dsimp only
      simp
      omega
    · try dsimp only
      simp
      omega
  case _ =>
    rename_i hbs
    have hCw : s.absorbedCloser ≤ s.closers := by
      by_cases h : s.prevCat = PrevCat.closer
      · rw [if_pos h] at hC; omega
      · rw [if_neg h] at hC; omega
    refine ⟨?_, ?_, ?_⟩
    · intro h
      simp at h
    · simp only [inB] at hB ⊢
      try dsimp only
      omega
    · try dsimp only
      simp
      omega

theorem pipeFlush_countInv (s s2 : PipeState) (hP : pipeCountInv s)
    (hflush : pipeFlush s = Except.ok s2) :
    sumNvars s2.emitted + s2.singletons + s2.closers
      = s2.n + s2.absorbedSingle + s2.absorbedCloser ∧
    s2.absorbedCloser ≤ s2.closers := by
  obtain ⟨hA, hB, hC⟩ := hP
  have hCw : s.absorbedCloser ≤ s.closers := by
    by_cases h : s.prevCat = PrevCat.closer
    · rw [if_pos h] at hC; omega
    · rw [if_neg h] at hC; omega
  simp only [pipeFlush] at hflush
  repeat' split at hflush
  all_goals try (cases hflush)
  case _ =>
    rename_i hbs
    have h0 : inB s = 0 := by simp [inB, hbs]
    rw [h0] at hB
    exact ⟨by omega, hCw⟩
  case _ =>
    rename_i x bs hbs x2 ch hch hgt
    have h0 : inB s = s.nVariants := by simp [inB, hbs]
    rw [h0] at hB
    constructor
    · try dsimp only
      rw [sumNvars_append]
      simp
      omega
    · try dsimp only
      exact hCw

theorem tagInit_blocksOk : tagBlocksOk tagInit := by
  constructor
  · intro b hb
    simp [tagInit] at hb
  · intro nm pr h1 h2
    simp [tagInit] at h1

theorem pipeInit_blocksOk : pipeBlocksOk pipeInit := by
  constructor
  · intro b hb
    simp [pipeInit] at hb
  · intro h
    simp [pipeInit] at h

theorem pipeInit_countInv : pipeCountInv pipeInit := by
  refine ⟨?_, ?_, ?_⟩
  · intro h
    simp [pipeInit] at h
  · simp [pipeInit, sumNvars, inB]
  · simp [pipeInit]

theorem c5_blocks_invariant :
    (∀ (rs : List VcfRecord) (st : TagState) (stats : TagStats),
      parse_hp_tags rs = Except.ok (st, stats) →
      ∀ b ∈ st.emitted, b.start < b.stop ∧ 1 ≤ b.nvars) ∧
    (∀ (rs : List VcfRecord) (st : PipeState),
      pipeRun rs = Except.ok st →
      ∀ b ∈ st.emitted, b.start < b.stop ∧ 2 ≤ b.nvars) := by
  constructor
  · intro rs st stats hrun b hb
    simp only [parse_hp_tags] at hrun
    cases hrx : tagRunFrom tagInit rs with
    | error e => rw [hrx] at hrun; cases hrun
    | ok st1 =>
      rw [hrx] at hrun
      simp only [Except.ok.injEq, Prod.mk.injEq] at hrun
      obtain ⟨h1, h2⟩ := hrun
      subst h1
      exact (tagRunFrom_inv tagBlocksOk tagStep_blocksOk rs tagInit st1
        tagInit_blocksOk hrx).1 b hb
  · intro rs st hrun b hb
    simp only [pipeRun] at hrun
    cases hrx : pipeRunFrom pipeInit rs with
    | error e => rw [hrx] at hrun; cases hrun
    | ok st1 =>
      rw [hrx] at hrun
      exact pipeFlush_blocksOk st1 st
        (pipeRunFrom_inv pipeBlocksOk pipeStep_blocksOk rs pipeInit st1
          pipeInit_blocksOk hrx) hrun b hb

theorem c6_partition_amended (rs : List VcfRecord) (st : PipeState)
    (hrun : pipeRun rs = Except.ok st) :
    sumNvars st.emitted + st.singletons + st.closers
      = st.n + st.absorbedSingle + st.absorbedCloser ∧
    st.absorbedCloser ≤ st.closers := by
  simp only [pipeRun] at hrun
  cases hrx : pipeRunFrom pipeInit rs with
  | error e => rw [hrx] at hrun; cases hrun
  | ok st1 =>
    rw [hrx] at hrun
    exact pipeFlush_countInv st1 st
      (pipeRunFrom_inv pipeCountInv pipeStep_countInv rs pipeInit st1
        pipeInit_countInv hrx) hrun

theorem c5_singleton_block_counterexample :
    (parse_hp_tags
      [⟨"chr1", 100, true, 1, 1, true, false, some ["5-1", "5-2"]⟩,
       ⟨"chr1", 105, true, 1, 1, true, false, none⟩]).map
      (fun p => p.1.emitted) =
    Except.ok [{ chrom := "chr1", start := 100, stop := 101, name := "5", nvars := 1 }] ∧
    ¬(2 ≤ (1 : Nat)) :=
  ⟨rfl, by decide⟩

theorem c5_blocks_invariant_witness :
    ((100 : Nat) < 101 ∧ (1 : Nat) ≤ 1) ∧ ((0 : Nat) < 6 ∧ (2 : Nat) ≤ 2) :=
  ⟨c5_blocks_invariant.1
    [⟨"chr1", 100, true, 1, 1, true, false, some ["5-1", "5-2"]⟩,
     ⟨"chr1", 105, true, 1, 1, true, false, none⟩]
    { nPhased := 1, nRecords := 2, blocks := [(("chr1", "5"), 1)],
      prevBlockName := none,
      prevRecord := some ⟨"chr1", 105, true, 1, 1, true, false, none⟩,
      blockStart := 100,
      emitted := [{ chrom := "chr1", start := 100, stop := 101, name := "5", nvars := 1 }] }
    { nRecords := 2, nPhased := 1, nBlocks := 1, largest := some 1,
      median := some 1, smallest := some 1 }
    rfl
    { chrom := "chr1", start := 100, stop := 101, name := "5", nvars := 1 }
    (by decide),
   c5_blocks_invariant.2
    [⟨"chr1", 0, true, 1, 1, true, false, none⟩,
     ⟨"chr1", 5, true, 1, 1, true, true, none⟩,
     ⟨"chr1", 9, true, 1, 1, true, false, none⟩]
    { n := 3, blockStart := none, nVariants := 2, singletons := 1, prevStart := 9,
      blockLengths := [6],
      emitted := [{ chrom := "chr1", start := 0, stop := 6, len := 6, nvars := 2 }],
      lastChrom := some "chr1", prevCat := PrevCat.closer, closers := 1,
      absorbedCloser := 0, absorbedSingle := 1 }
    rfl
    { chrom := "chr1", start := 0, stop := 6, len := 6, nvars := 2 }
    (by decide)⟩

theorem c6_partition_counterexample :
    (pipeRun
      [⟨"chr1", 0, true, 1, 1, true, false, none⟩,
       ⟨"chr1", 5, true, 1, 1, true, true, none⟩,
       ⟨"chr1", 9, true, 1, 1, true, false, none⟩]).map
      (fun st => (sumNvars st.emitted, st.singletons,
                  st.closers - st.absorbedCloser, st.n)) =
    Except.ok (2, 1, 1, 3) ∧ 2 + 1 + 1 ≠ 3 :=
  ⟨rfl, by decide⟩

theorem c6_partition_witness :
    sumNvars [{ chrom := "chr1", start := 0, stop := 6, len := 6, nvars := 2 }]
        + 1 + 1 = 3 + 1 + 0 ∧ (0 : Nat) ≤ 1 :=
  c6_partition_amended
    [⟨"chr1", 0, true, 1, 1, true, false, none⟩,
     ⟨"chr1", 5, true, 1, 1, true, true, none⟩,
     ⟨"chr1", 9, true, 1, 1, true, false, none⟩]
    { n := 3, blockStart := none, nVariants := 2, singletons := 1, prevStart := 9,
      blockLengths := [6],
      emitted := [{ chrom := "chr1", start := 0, stop := 6, len := 6, nvars := 2 }],
      lastChrom := some "chr1", prevCat := PrevCat.closer, closers := 1,
      absorbedCloser := 0, absorbedSingle := 1 }
    rfl
